import Mathlib

/-!
Shallow embedding of the index-construction engine of `fast_app/services.py`
(class `IndexBuilderService`) together with the two market-data tables it reads
(`daily_stock_prices`, `daily_market_cap`, maintained by `data_pipeline`).

Modelling conventions:
* Python floats are embedded as `ℚ`; Python float floor division `//` is `Int.floor`
  of the exact quotient.
* Dates are day numbers (`Int`); `date ± timedelta(days=1)` is `date ± 1`.
* Stock dicts are `Stock` records.  The keys `weight`, `notional_value`, `shares`
  are absent from the dicts built by `_get_top_n_stocks` and are added in place by
  `_calculate_equal_weights`, so they are `Option ℚ` fields (`none` = key absent).
  Where the Python code reads such a key unconditionally (it is always present at
  those program points) the model reads it with default `0` via `Option.getD`.
* A raised `ValueError` is `none` / a `none`-valued result.
* SQL result sets are lists; `ORDER BY market_cap DESC` is realised by a
  descending insertion sort.  The SQL engine leaves the relative order of rows
  with exactly equal `market_cap` unspecified, so the top-N query is additionally
  characterised by the predicate `ValidTopN` quantifying over all descending
  orderings, and `build_index_with` abstracts the selector as a parameter.
-/

namespace IndexBuilder

/-- A row of the `daily_market_cap` table (`market_cap` is nullable). -/
structure CapRow where
  symbol : String
  exchange : String
  date : Int
  market_cap : Option ℚ
deriving DecidableEq

/-- A row of the `daily_stock_prices` table (`close` is nullable). -/
structure PriceRow where
  symbol : String
  exchange : String
  date : Int
  close : Option ℚ
  volume : ℚ
deriving DecidableEq

/-- The market data store read by the service. -/
structure DB where
  caps : List CapRow
  prices : List PriceRow
deriving DecidableEq

/-- A stock record / portfolio position (a Python dict in the source).
`weight`, `notional_value`, `shares` model dict keys that may be absent. -/
structure Stock where
  symbol : String
  exchange : String
  market_cap : ℚ
  price : ℚ
  volume : ℚ
  weight : Option ℚ := none
  notional_value : Option ℚ := none
  shares : Option ℚ := none
deriving DecidableEq

/-- The filtered join in `_get_top_n_stocks`: join `daily_market_cap` with
`daily_stock_prices` on (symbol, date, exchange), restricted to the given date,
keeping rows with non-null `market_cap`, non-null `close` and `close > 0`. -/
def filteredJoin (db : DB) (d : Int) : List Stock :=
  (db.caps.filter (fun m => decide (m.date = d))).flatMap (fun m =>
    (db.prices.filter (fun p =>
        decide (m.symbol = p.symbol ∧ m.date = p.date ∧ m.exchange = p.exchange))).filterMap
      (fun p =>
        match m.market_cap, p.close with
        | some mc, some c =>
          if 0 < c then
            some { symbol := m.symbol, exchange := m.exchange,
                   market_cap := mc, price := c, volume := p.volume }
          else none
        | _, _ => none))

/-- `a` may come no later than `b` in a `market_cap` descending ordering. -/
def capGE (a b : Stock) : Prop := b.market_cap ≤ a.market_cap

instance : DecidableRel capGE :=
  fun a b => inferInstanceAs (Decidable (b.market_cap ≤ a.market_cap))

instance : IsTotal Stock capGE := ⟨fun a b => le_total b.market_cap a.market_cap⟩

instance : IsTrans Stock capGE := ⟨fun _ _ _ h1 h2 => le_trans h2 h1⟩

/-- `ORDER BY market_cap DESC`, determinized as a stable descending sort. -/
def sortByCapDesc (l : List Stock) : List Stock := l.insertionSort capGE

/-- Sorted by market cap descending. -/
def SortedByCapDesc (l : List Stock) : Prop := l.Sorted capGE

/-- `_get_top_n_stocks date top_n`: the filtered, ordered join limited to `n`
rows; the empty result raises `ValueError` (modelled as `none`). -/
def get_top_n_stocks (db : DB) (d : Int) (n : Nat) : Option (List Stock) :=
  let rows := (sortByCapDesc (filteredJoin db d)).take n
  if rows.isEmpty then none else some rows

/-- A result the SQL query in `_get_top_n_stocks` may legally return at date `d`
with `LIMIT n`: the first `n` rows of some `market_cap`-descending ordering of
the filtered join, with the empty result reported as an error. -/
def ValidTopN (db : DB) (d : Int) (n : Nat) (res : Option (List Stock)) : Prop :=
  ∃ full, full.Perm (filteredJoin db d) ∧ SortedByCapDesc full ∧
    res = (if (full.take n).isEmpty then none else some (full.take n))

/-- A selector function that behaves like `_get_top_n_stocks` against `db` for
some (unspecified) tie ordering of the SQL engine. -/
def ValidSel (db : DB) (n : Nat) (sel : Int → Option (List Stock)) : Prop :=
  ∀ d, ValidTopN db d n (sel d)

/-- `_get_top_n_stocks` under the alternative tie ordering in which the SQL
engine enumerates join rows in reverse: also a legal execution of the query. -/
def get_top_n_stocks_rev (db : DB) (d : Int) (n : Nat) : Option (List Stock) :=
  let rows := (sortByCapDesc (filteredJoin db d).reverse).take n
  if rows.isEmpty then none else some rows

/-- `_calculate_equal_weights stocks nav`.  The Python sets the three allocation
keys on each stock dict in place and returns the same list object; the model
returns the updated records. -/
def calculate_equal_weights (stocks : List Stock) (nav : ℚ) : List Stock :=
  let n := stocks.length
  if n = 0 then []
  else
    let weight : ℚ := 1 / n
    let notional_per_stock := nav * weight
    stocks.map (fun s =>
      { s with weight := some weight,
               notional_value := some notional_per_stock,
               shares := some (notional_per_stock / s.price) })

/-- `_calculate_nav`: `nav += shares * price` over the portfolio. -/
def calculate_nav (portfolio : List Stock) : ℚ :=
  portfolio.foldl (fun nav p => nav + p.shares.getD 0 * p.price) 0

/-- `fetchone` of the price query in `_update_portfolio_prices`: the first
`daily_stock_prices` row matching (symbol, exchange, date). -/
def price_lookup (db : DB) (sym exch : String) (d : Int) : Option PriceRow :=
  (db.prices.filter (fun r =>
    decide (r.symbol = sym ∧ r.exchange = exch ∧ r.date = d))).head?

/-- The treatment of one position in `_update_portfolio_prices`: `some` = the
position is kept (its dict mutated in place), `none` = it is dropped.  Python
keeps the position iff the row exists and `result[0]` is truthy, i.e. `close`
is non-null and non-zero.  `outstanding_shares` uses Python float floor
division `//`. -/
def update_position (db : DB) (d : Int) (p : Stock) : Option Stock :=
  let outstanding_shares : ℤ := ⌊p.market_cap / p.price⌋
  match price_lookup db p.symbol p.exchange d with
  | some r =>
    match r.close with
    | some c =>
      if c ≠ 0 then
        some { p with price := c, volume := r.volume,
                      notional_value := some (p.shares.getD 0 * c),
                      market_cap := (outstanding_shares : ℚ) * c }
      else none
    | none => none
  | none => none

/-- `_update_portfolio_prices`: the list returned to the caller. -/
def update_portfolio_prices (db : DB) (portfolio : List Stock) (d : Int) : List Stock :=
  portfolio.filterMap (update_position db d)

/-- The caller's portfolio list after `_update_portfolio_prices` ran over it:
the position dicts are aliased, so kept positions have been mutated in place
while dropped ones are untouched and remain in the caller's list. -/
def mutated_portfolio (db : DB) (portfolio : List Stock) (d : Int) : List Stock :=
  portfolio.map (fun p => (update_position db d p).getD p)

/-- The (symbol, exchange) key of a stock record. -/
def stockKey (s : Stock) : String × String := (s.symbol, s.exchange)

/-- `_detect_composition_changes old_symbols new_symbols old_portfolio new_portfolio`. -/
def detect_composition_changes (old_symbols new_symbols : List (String × String))
    (old_portfolio new_portfolio : List Stock) : List Stock × List Stock :=
  let added_symbols := new_symbols.filter (fun k => decide (k ∉ old_symbols))
  let removed_symbols := old_symbols.filter (fun k => decide (k ∉ new_symbols))
  (new_portfolio.filter (fun s => decide (stockKey s ∈ added_symbols)),
   old_portfolio.filter (fun s => decide (stockKey s ∈ removed_symbols)))

/-- A row of the `index_performance` table. -/
structure PerfRow where
  date : Int
  nav : ℚ
  daily_return : ℚ
  cumulative_return : ℚ
  top_n : Nat
deriving DecidableEq

/-- A row of the `index_composition` table. -/
structure CompRow where
  date : Int
  symbol : String
  exchange : String
  market_cap : ℚ
  price : ℚ
  shares : ℚ
  weight : ℚ
  notional_value : ℚ
  top_n : Nat
deriving DecidableEq

/-- A row of the `composition_changes` table (`change_type` is `"ADDED"` or
`"REMOVED"`). -/
structure ChangeRow where
  date : Int
  symbol : String
  exchange : String
  change_type : String
  market_cap : ℚ
  top_n : Nat
deriving DecidableEq

/-- The three index tables owned by the service. -/
structure Tables where
  performance : List PerfRow
  composition : List CompRow
  changes : List ChangeRow
deriving DecidableEq

/-- `reset_index_tables`: `DELETE FROM` each of the three tables `WHERE true`. -/
def reset_index_tables (t : Tables) : Tables :=
  { performance := t.performance.filter (fun _ => false),
    composition := t.composition.filter (fun _ => false),
    changes := t.changes.filter (fun _ => false) }

/-- `_save_performance`: delete the (date, top_n) row if any, then insert. -/
def save_performance (t : List PerfRow) (d : Int) (nav daily cum : ℚ) (n : Nat) :
    List PerfRow :=
  t.filter (fun r => decide (¬(r.date = d ∧ r.top_n = n))) ++ [⟨d, nav, daily, cum, n⟩]

/-- The `index_composition` row inserted for one position by `_save_composition`. -/
def comp_row (d : Int) (n : Nat) (p : Stock) : CompRow :=
  ⟨d, p.symbol, p.exchange, p.market_cap, p.price,
   p.shares.getD 0, p.weight.getD 0, p.notional_value.getD 0, n⟩

/-- `_save_composition`: delete this (date, top_n) scope, then insert one row
per position. -/
def save_composition (t : List CompRow) (d : Int) (portfolio : List Stock) (n : Nat) :
    List CompRow :=
  t.filter (fun r => decide (¬(r.date = d ∧ r.top_n = n))) ++ portfolio.map (comp_row d n)

/-- The `composition_changes` row inserted for one stock. -/
def change_row (d : Int) (n : Nat) (ty : String) (s : Stock) : ChangeRow :=
  ⟨d, s.symbol, s.exchange, ty, s.market_cap, n⟩

/-- `_save_composition_changes`: delete this (date, top_n) scope, then insert
the added and removed stocks. -/
def save_composition_changes (t : List ChangeRow) (d : Int)
    (added removed : List Stock) (n : Nat) : List ChangeRow :=
  t.filter (fun r => decide (¬(r.date = d ∧ r.top_n = n))) ++
    added.map (change_row d n "ADDED") ++ removed.map (change_row d n "REMOVED")

/-- The mutable state threaded through the ITERATE loop of `build_index`:
`current_nav`, the carried `prev_portfolio`, the persisted tables and the
`days_processed` counter. -/
structure BuildState where
  current_nav : ℚ
  prev_portfolio : List Stock
  tables : Tables
  days_processed : Nat
deriving DecidableEq

/-- One iteration of the ITERATE loop of `build_index` for date `d`.  `sel` is
the top-N selector (`_get_top_n_stocks` at the loop's `top_n`); its `none`
result is the `ValueError` caught at the bottom of the loop body, which occurs
only after the performance row for `d` has already been saved and the aliased
position dicts have been mutated in place. -/
def build_step (db : DB) (sel : Int → Option (List Stock)) (base_nav : ℚ) (n : Nat)
    (s : BuildState) (d : Int) : BuildState :=
  let portfolio := update_portfolio_prices db s.prev_portfolio d
  if portfolio.isEmpty then s
  else
    let prev_nav := s.current_nav
    let current_nav := calculate_nav portfolio
    let daily_return := if 0 < prev_nav then (current_nav - prev_nav) / prev_nav * 100 else 0
    let cumulative_return := (current_nav - base_nav) / base_nav * 100
    let perf := save_performance s.tables.performance d current_nav daily_return
      cumulative_return n
    match sel d with
    | none =>
      { current_nav := current_nav,
        prev_portfolio := mutated_portfolio db s.prev_portfolio d,
        tables := { s.tables with performance := perf },
        days_processed := s.days_processed }
    | some new_top_stocks =>
      let old_symbols := portfolio.map stockKey
      let new_symbols := new_top_stocks.map stockKey
      let changes := detect_composition_changes old_symbols new_symbols
        portfolio new_top_stocks
      let change_table :=
        if changes.1.isEmpty && changes.2.isEmpty then s.tables.changes
        else save_composition_changes s.tables.changes d changes.1 changes.2 n
      let new_portfolio := calculate_equal_weights new_top_stocks current_nav
      { current_nav := current_nav,
        prev_portfolio := new_portfolio,
        tables := { performance := perf,
                    composition := save_composition s.tables.composition d new_portfolio n,
                    changes := change_table },
        days_processed := s.days_processed + 1 }

/-- The INIT-phase backward probe loop of `build_index`: try the selector at
`d`, `d - 1`, ... for at most the given number of attempts; a successful but
empty result also fails the build (`if attempts == max_attempts or not
top_stocks: raise`). -/
def find_init_date (sel : Int → Option (List Stock)) : Int → Nat → Option (Int × List Stock)
  | _, 0 => none
  | d, k + 1 =>
    match sel d with
    | some stocks => if stocks.isEmpty then none else some (d, stocks)
    | none => find_init_date sel (d - 1) k

/-- The calendar days from `start` to `stop` inclusive (empty when `stop < start`). -/
def date_range (start stop : Int) : List Int :=
  (List.range (stop + 1 - start).toNat).map (fun i : Nat => start + (i : Int))

/-- The summary returned by `build_index`, together with the tables it left
persisted. -/
structure BuildResult where
  init_date : Int
  final_nav : ℚ
  total_return : ℚ
  days_processed : Nat
  tables : Tables
deriving DecidableEq

/-- `build_index` with the top-N selector abstracted (the SQL engine's tie
order among equal market caps is unspecified).  `t0` is the previously
persisted index data, cleared by `reset_index_tables` before anything else.
`none` is the fatal `ValueError` raised when the INIT phase finds no data. -/
def build_index_with (db : DB) (sel : Int → Option (List Stock))
    (start_date stop_date : Int) (n : Nat) (initial_nav : ℚ) (t0 : Tables) :
    Option BuildResult :=
  let cleared := reset_index_tables t0
  match find_init_date sel (start_date - 1) 10 with
  | none => none
  | some (init_date, top_stocks) =>
    let portfolio := calculate_equal_weights top_stocks initial_nav
    let s0 : BuildState :=
      { current_nav := initial_nav,
        prev_portfolio := portfolio,
        tables := { cleared with
                    composition := save_composition cleared.composition init_date portfolio n },
        days_processed := 0 }
    let sF := (date_range start_date stop_date).foldl (build_step db sel initial_nav n) s0
    some { init_date := init_date,
           final_nav := sF.current_nav,
           total_return := (sF.current_nav - initial_nav) / initial_nav * 100,
           days_processed := sF.days_processed,
           tables := sF.tables }

/-- `build_index` proper: the selector is `_get_top_n_stocks` against the store
under the canonical row ordering. -/
def build_index (db : DB) (start_date stop_date : Int) (n : Nat) (initial_nav : ℚ)
    (t0 : Tables) : Option BuildResult :=
  build_index_with db (fun d => get_top_n_stocks db d n) start_date stop_date n
    initial_nav t0

/-! ### Helper lemmas -/

lemma sum_map_const {α : Type} (l : List α) (c : ℚ) :
    (l.map (fun _ => c)).sum = l.length * c := by
  induction l with
  | nil => simp
  | cons a t ih => simp [ih]; ring

lemma calculate_equal_weights_of_ne_nil (stocks : List Stock) (nav : ℚ)
    (h : stocks ≠ []) :
    calculate_equal_weights stocks nav =
      stocks.map (fun s =>
        { s with weight := some (1 / (stocks.length : ℚ)),
                 notional_value := some (nav * (1 / (stocks.length : ℚ))),
                 shares := some (nav * (1 / (stocks.length : ℚ)) / s.price) }) := by
  have hlen : stocks.length ≠ 0 := by simpa [List.length_eq_zero] using h
  simp only [calculate_equal_weights, if_neg hlen]

lemma update_position_eq_some (db : DB) (d : Int) (p q : Stock) :
    update_position db d p = some q ↔
      ∃ r, price_lookup db p.symbol p.exchange d = some r ∧
        ∃ c, r.close = some c ∧ c ≠ 0 ∧
          q = { p with price := c, volume := r.volume,
                       notional_value := some (p.shares.getD 0 * c),
                       market_cap := ((⌊p.market_cap / p.price⌋ : ℤ) : ℚ) * c } := by
  unfold update_position
  cases hl : price_lookup db p.symbol p.exchange d with
  | none => simp
  | some r =>
    simp only [Option.some.injEq]
    cases hc : r.close with
    | none =>
      simp only [hc]
      constructor
      · intro h; cases h
      · rintro ⟨r', hr', c', hc', -, -⟩
        obtain rfl := hr'
        rw [hc] at hc'; cases hc'
    | some c =>
      simp only [hc]
      by_cases h0 : c ≠ 0
      · rw [if_pos h0]
        constructor
        · intro h
          injection h with h
          exact ⟨r, rfl, c, hc, h0, h.symm⟩
        · rintro ⟨r', hr', c', hc', -, rfl⟩
          obtain rfl := hr'
          rw [hc] at hc'
          obtain rfl : c = c' := by injection hc'
          rfl
      · rw [if_neg h0]
        constructor
        · intro h; cases h
        · rintro ⟨r', hr', c', hc', hc'0, -⟩
          obtain rfl := hr'
          rw [hc] at hc'
          obtain rfl : c = c' := by injection hc'
          exact absurd (by simpa using h0) hc'0

/-! ### C2 — Equal-Weight Allocator -/

/-- C2: for a non-empty list of N stocks with positive prices and any nav,
`_calculate_equal_weights` gives every entry weight = 1/N, notional_value =
nav·(1/N) and shares = notional/price; the weights sum to 1 and the notional
values sum to nav; the empty list yields the empty portfolio. -/
theorem calculate_equal_weights_spec (stocks : List Stock) (nav : ℚ)
    (hne : stocks ≠ []) (hpos : ∀ s ∈ stocks, 0 < s.price) :
    (∀ s ∈ calculate_equal_weights stocks nav,
        s.weight = some (1 / (stocks.length : ℚ)) ∧
        s.notional_value = some (nav * (1 / (stocks.length : ℚ))) ∧
        s.shares = some (nav * (1 / (stocks.length : ℚ)) / s.price)) ∧
    ((calculate_equal_weights stocks nav).map (fun s => s.weight.getD 0)).sum = 1 ∧
    ((calculate_equal_weights stocks nav).map (fun s => s.notional_value.getD 0)).sum
      = nav ∧
    calculate_equal_weights [] nav = [] := by
  have hlen : stocks.length ≠ 0 := by simpa [List.length_eq_zero] using hne
  have hlenQ : ((stocks.length : ℚ)) ≠ 0 := by exact_mod_cast hlen
  rw [calculate_equal_weights_of_ne_nil stocks nav hne]
  refine ⟨?_, ?_, ?_, rfl⟩
  · intro s hs
    rcases List.mem_map.mp hs with ⟨a, _, rfl⟩
    exact ⟨rfl, rfl, rfl⟩
  · rw [List.map_map]
    have heq : ((fun s : Stock => s.weight.getD 0) ∘
        (fun s : Stock =>
          { s with weight := some (1 / (stocks.length : ℚ)),
                   notional_value := some (nav * (1 / (stocks.length : ℚ))),
                   shares := some (nav * (1 / (stocks.length : ℚ)) / s.price) }))
        = fun _ : Stock => (1 / (stocks.length : ℚ)) := rfl
    rw [heq, sum_map_const, mul_one_div_cancel hlenQ]
  · rw [List.map_map]
    have heq : ((fun s : Stock => s.notional_value.getD 0) ∘
        (fun s : Stock =>
          { s with weight := some (1 / (stocks.length : ℚ)),
                   notional_value := some (nav * (1 / (stocks.length : ℚ))),
                   shares := some (nav * (1 / (stocks.length : ℚ)) / s.price) }))
        = fun _ : Stock => (nav * (1 / (stocks.length : ℚ))) := rfl
    rw [heq, sum_map_const]
    field_simp

def c2_stocks : List Stock :=
  [{ symbol := "A", exchange := "X", market_cap := 300, price := 10, volume := 1 },
   { symbol := "B", exchange := "X", market_cap := 200, price := 20, volume := 1 }]

/-- Witness for `calculate_equal_weights_spec` at two concrete stocks. -/
theorem calculate_equal_weights_spec_witness :
    (c2_stocks ≠ [] ∧ ∀ s ∈ c2_stocks, 0 < s.price) ∧
    ((∀ s ∈ calculate_equal_weights c2_stocks 1000,
        s.weight = some (1 / (c2_stocks.length : ℚ)) ∧
        s.notional_value = some (1000 * (1 / (c2_stocks.length : ℚ))) ∧
        s.shares = some (1000 * (1 / (c2_stocks.length : ℚ)) / s.price)) ∧
      ((calculate_equal_weights c2_stocks 1000).map (fun s => s.weight.getD 0)).sum = 1 ∧
      ((calculate_equal_weights c2_stocks 1000).map
          (fun s => s.notional_value.getD 0)).sum = 1000 ∧
      calculate_equal_weights [] 1000 = []) :=
  ⟨⟨by decide, by decide⟩,
   calculate_equal_weights_spec c2_stocks 1000 (by decide) (by decide)⟩

/-! ### C3 — market-cap re-derivation in the Portfolio Valuator -/

def c3db : DB := { caps := [], prices := [⟨"A", "X", 1, some 10, 3⟩] }

def c3pos : Stock :=
  { symbol := "A", exchange := "X", market_cap := 250, price := 100, volume := 1,
    weight := some 1, notional_value := some 1000, shares := some 10 }

/-- C3 counterexample: with prior market_cap 250 and prior price 100, the code
computes `outstanding_shares = 250 // 100 = 2` (floor division) and hence new
market_cap 2·10 = 20, while the exact quotient 250/100 = 2.5 would give 25. -/
theorem update_position_market_cap_truncates :
    (update_position c3db 1 c3pos).map (fun q => (q.market_cap, q.price))
        = some (20, 10) ∧
    c3pos.market_cap / c3pos.price * 10 = 25 ∧ (20 : ℚ) ≠ 25 := by
  refine ⟨?_, ?_, by decide⟩
  · norm_num [update_position, price_lookup, c3db, c3pos]
  · norm_num [c3pos]

/-- C3 (amended): for every position retained on a revaluation date, the new
market_cap equals ⌊prior_market_cap / prior_price⌋ · new_price — the implied
outstanding-shares factor is the floored quotient (Python `//`), not the exact
one. -/
theorem update_position_market_cap (db : DB) (d : Int) (p q : Stock)
    (h : update_position db d p = some q) :
    q.market_cap = ((⌊p.market_cap / p.price⌋ : ℤ) : ℚ) * q.price := by
  rcases (update_position_eq_some db d p q).mp h with ⟨r, -, c, -, -, rfl⟩
  rfl

def c3res : Stock :=
  { symbol := "A", exchange := "X", market_cap := 20, price := 10, volume := 3,
    weight := some 1, notional_value := some 100, shares := some 10 }

/-- Witness for `update_position_market_cap` at a concrete retained position. -/
theorem update_position_market_cap_witness :
    update_position c3db 1 c3pos = some c3res ∧
    c3res.market_cap = ((⌊c3pos.market_cap / c3pos.price⌋ : ℤ) : ℚ) * c3res.price := by
  have h : update_position c3db 1 c3pos = some c3res := by
    norm_num [update_position, price_lookup, c3db, c3pos, c3res]
  exact ⟨h, update_position_market_cap c3db 1 c3pos c3res h⟩

/-! ### C4 — the Allocator mutates its input -/

def c4_stock : Stock :=
  { symbol := "A", exchange := "X", market_cap := 100, price := 10, volume := 5 }

/-- C4 counterexample: `_calculate_equal_weights` does not leave the caller's
records unchanged — it sets the weight/notional_value/shares keys on each stock
dict in place, so after the call the caller's record differs from its value
before the call. -/
theorem calculate_equal_weights_mutates_input :
    calculate_equal_weights [c4_stock] 100 ≠ [c4_stock] := by
  norm_num [calculate_equal_weights, c4_stock]
  simp

/-- C4 (amended): `_calculate_equal_weights` performs no store access (its
embedding takes no `DB`), but it is not free of side effects on its argument:
the caller's records after the call correspond one-to-one to the inputs with
symbol, exchange, market_cap, price and volume untouched and the weight,
notional_value and shares keys set in place. -/
theorem calculate_equal_weights_frame (stocks : List Stock) (nav : ℚ) :
    List.Forall₂
      (fun s t => t.symbol = s.symbol ∧ t.exchange = s.exchange ∧
        t.market_cap = s.market_cap ∧ t.price = s.price ∧ t.volume = s.volume ∧
        t.weight = some (1 / (stocks.length : ℚ)) ∧
        t.notional_value = some (nav * (1 / (stocks.length : ℚ))) ∧
        t.shares = some (nav * (1 / (stocks.length : ℚ)) / s.price))
      stocks (calculate_equal_weights stocks nav) := by
  rcases eq_or_ne stocks [] with h | h
  · subst h
    simp [calculate_equal_weights]
  · rw [calculate_equal_weights_of_ne_nil stocks nav h]
    rw [List.forall₂_map_right_iff]
    rw [List.forall₂_same]
    intro x _
    exact ⟨rfl, rfl, rfl, rfl, rfl, rfl, rfl, rfl⟩

/-! ### C6 — Portfolio Valuator keep/drop behaviour -/

lemma update_position_isSome (db : DB) (d : Int) (p : Stock) :
    (update_position db d p).isSome = true ↔
      ∃ r, price_lookup db p.symbol p.exchange d = some r ∧
        ∃ c, r.close = some c ∧ c ≠ 0 := by
  constructor
  · intro h
    rcases Option.isSome_iff_exists.mp h with ⟨q, hq⟩
    rcases (update_position_eq_some db d p q).mp hq with ⟨r, hr, c, hc, h0, -⟩
    exact ⟨r, hr, c, hc, h0⟩
  · rintro ⟨r, hr, c, hc, h0⟩
    rw [(update_position_eq_some db d p _).mpr ⟨r, hr, c, hc, h0, rfl⟩]
    rfl

def c6db : DB := { caps := [], prices := [⟨"A", "X", 1, some 0, 7⟩] }

def c6pos : Stock :=
  { symbol := "A", exchange := "X", market_cap := 100, price := 10, volume := 1,
    weight := some 1, notional_value := some 1000, shares := some 100 }

/-- C6 counterexample: a non-null close price (0) exists for ("A","X") on day 1,
yet the position is dropped from the output: Python tests `result[0]` for
truthiness, so a recorded close of 0 is treated like a missing price. -/
theorem update_portfolio_prices_drops_zero_close :
    price_lookup c6db "A" "X" 1 = some ⟨"A", "X", 1, some 0, 7⟩ ∧
    update_portfolio_prices c6db [c6pos] 1 = [] := by
  constructor
  · norm_num [price_lookup, c6db]
  · norm_num [update_portfolio_prices, update_position, price_lookup, c6db, c6pos]

/-- C6 (amended): the Valuator's output consists of exactly those input
positions whose price row exists with a non-null **and non-zero** close (a
close of 0 is falsy in Python and the position is dropped like a missing one);
each retained position keeps shares and weight unchanged and gets
notional_value = shares · new_price, volume from the row, and the new price;
positions without such a close are dropped without error. -/
theorem update_portfolio_prices_spec (db : DB) (portfolio : List Stock) (d : Int) :
    (∀ p ∈ portfolio, ((update_position db d p).isSome = true ↔
        ∃ r, price_lookup db p.symbol p.exchange d = some r ∧
          ∃ c, r.close = some c ∧ c ≠ 0)) ∧
    List.Forall₂
      (fun p q => q.symbol = p.symbol ∧ q.exchange = p.exchange ∧
        q.shares = p.shares ∧ q.weight = p.weight ∧
        q.notional_value = some (p.shares.getD 0 * q.price) ∧
        ∃ r, price_lookup db p.symbol p.exchange d = some r ∧
          r.close = some q.price ∧ q.volume = r.volume ∧ q.price ≠ 0)
      (portfolio.filter (fun p => (update_position db d p).isSome))
      (update_portfolio_prices db portfolio d) := by
  refine ⟨fun p _ => update_position_isSome db d p, ?_⟩
  unfold update_portfolio_prices
  induction portfolio with
  | nil => exact List.Forall₂.nil
  | cons p t ih =>
    rw [List.filterMap_cons]
    cases hq : update_position db d p with
    | none =>
      rw [List.filter_cons_of_neg]
      · exact ih
      · simp [hq]
    | some q =>
      rw [List.filter_cons_of_pos]
      · refine List.Forall₂.cons ?_ ih
        rcases (update_position_eq_some db d p q).mp hq with ⟨r, hr, c, hc, h0, rfl⟩
        exact ⟨rfl, rfl, rfl, rfl, rfl, r, hr, hc, rfl, h0⟩
      · simp [hq]

def c6db2 : DB :=
  { caps := [],
    prices := [⟨"A", "X", 1, some 12, 7⟩] }

/-- Witness for `update_portfolio_prices_spec`: one position with a price row
(kept, revalued) over a concrete store. -/
theorem update_portfolio_prices_spec_witness :
    (∀ p ∈ [c6pos], ((update_position c6db2 1 p).isSome = true ↔
        ∃ r, price_lookup c6db2 p.symbol p.exchange 1 = some r ∧
          ∃ c, r.close = some c ∧ c ≠ 0)) ∧
    List.Forall₂
      (fun p q => q.symbol = p.symbol ∧ q.exchange = p.exchange ∧
        q.shares = p.shares ∧ q.weight = p.weight ∧
        q.notional_value = some (p.shares.getD 0 * q.price) ∧
        ∃ r, price_lookup c6db2 p.symbol p.exchange 1 = some r ∧
          r.close = some q.price ∧ q.volume = r.volume ∧ q.price ≠ 0)
      (([c6pos] : List Stock).filter (fun p => (update_position c6db2 1 p).isSome))
      (update_portfolio_prices c6db2 [c6pos] 1) :=
  update_portfolio_prices_spec c6db2 [c6pos] 1

/-! ### C9 — Reconstitution Detector -/

/-- C9: keyed by (symbol, exchange), `added` is exactly the new top-N entries
whose key is not among the old portfolio's keys and `removed` exactly the old
positions whose key is not among the new list's keys; the two reported key sets
are disjoint, and identical key sets yield two empty lists. -/
theorem detect_composition_changes_spec (old_portfolio new_top : List Stock) :
    (detect_composition_changes (old_portfolio.map stockKey) (new_top.map stockKey)
        old_portfolio new_top).1
      = new_top.filter (fun s => decide (stockKey s ∉ old_portfolio.map stockKey)) ∧
    (detect_composition_changes (old_portfolio.map stockKey) (new_top.map stockKey)
        old_portfolio new_top).2
      = old_portfolio.filter (fun s => decide (stockKey s ∉ new_top.map stockKey)) ∧
    (∀ k, k ∈ (detect_composition_changes (old_portfolio.map stockKey)
          (new_top.map stockKey) old_portfolio new_top).1.map stockKey →
        k ∉ (detect_composition_changes (old_portfolio.map stockKey)
          (new_top.map stockKey) old_portfolio new_top).2.map stockKey) ∧
    ((∀ k, k ∈ old_portfolio.map stockKey ↔ k ∈ new_top.map stockKey) →
      (detect_composition_changes (old_portfolio.map stockKey) (new_top.map stockKey)
          old_portfolio new_top).1 = [] ∧
      (detect_composition_changes (old_portfolio.map stockKey) (new_top.map stockKey)
          old_portfolio new_top).2 = []) := by
  have h1 :
      (detect_composition_changes (old_portfolio.map stockKey) (new_top.map stockKey)
        old_portfolio new_top).1
      = new_top.filter (fun s => decide (stockKey s ∉ old_portfolio.map stockKey)) := by
    unfold detect_composition_changes
    refine List.filter_congr ?_
    intro s hs
    have hk : stockKey s ∈ new_top.map stockKey := List.mem_map_of_mem stockKey hs
    simp [List.mem_filter, hk]
  have h2 :
      (detect_composition_changes (old_portfolio.map stockKey) (new_top.map stockKey)
        old_portfolio new_top).2
      = old_portfolio.filter (fun s => decide (stockKey s ∉ new_top.map stockKey)) := by
    unfold detect_composition_changes
    refine List.filter_congr ?_
    intro s hs
    have hk : stockKey s ∈ old_portfolio.map stockKey := List.mem_map_of_mem stockKey hs
    simp [List.mem_filter, hk]
  refine ⟨h1, h2, ?_, ?_⟩
  · intro k hk1 hk2
    rw [h1] at hk1
    rw [h2] at hk2
    rcases List.mem_map.mp hk1 with ⟨s, hs, rfl⟩
    rcases List.mem_map.mp hk2 with ⟨s', hs', heq⟩
    have hns : stockKey s ∉ old_portfolio.map stockKey := by
      simpa using (List.mem_filter.mp hs).2
    have hs'old : stockKey s' ∈ old_portfolio.map stockKey :=
      List.mem_map_of_mem stockKey (List.mem_of_mem_filter hs')
    rw [heq] at hs'old
    exact hns hs'old
  · intro hiff
    constructor
    · rw [h1]
      refine List.filter_eq_nil_iff.mpr ?_
      intro s hs
      have hk : stockKey s ∈ new_top.map stockKey := List.mem_map_of_mem stockKey hs
      simp [(hiff (stockKey s)).mpr hk]
    · rw [h2]
      refine List.filter_eq_nil_iff.mpr ?_
      intro s hs
      have hk : stockKey s ∈ old_portfolio.map stockKey := List.mem_map_of_mem stockKey hs
      simp [(hiff (stockKey s)).mp hk]

def c9_stock : Stock :=
  { symbol := "A", exchange := "X", market_cap := 100, price := 10, volume := 1 }

/-- Witness for `detect_composition_changes_spec`: identical key sets give two
empty change lists. -/
theorem detect_composition_changes_spec_witness :
    (detect_composition_changes ([c9_stock].map stockKey) ([c9_stock].map stockKey)
        [c9_stock] [c9_stock]).1 = [] ∧
    (detect_composition_changes ([c9_stock].map stockKey) ([c9_stock].map stockKey)
        [c9_stock] [c9_stock]).2 = [] :=
  (detect_composition_changes_spec [c9_stock] [c9_stock]).2.2.2 (fun _ => Iff.rfl)

/-! ### C8 — Top-N Selector -/

lemma mem_filteredJoin {db : DB} {d : Int} {s : Stock} (h : s ∈ filteredJoin db d) :
    0 < s.price ∧ ∃ m ∈ db.caps, m.symbol = s.symbol ∧ m.exchange = s.exchange ∧
      m.date = d ∧ m.market_cap = some s.market_cap := by
  unfold filteredJoin at h
  rcases List.mem_flatMap.mp h with ⟨m, hm, hs⟩
  rcases List.mem_filterMap.mp hs with ⟨p, -, hps⟩
  have hmd : m.date = d := by simpa using (List.mem_filter.mp hm).2
  have hmc : m ∈ db.caps := (List.mem_filter.mp hm).1
  cases hcap : m.market_cap with
  | none => rw [hcap] at hps; cases hps
  | some mc =>
    cases hcl : p.close with
    | none => rw [hcap, hcl] at hps; cases hps
    | some c =>
      rw [hcap, hcl] at hps
      simp only [] at hps
      by_cases hpos : 0 < c
      · rw [if_pos hpos] at hps
        injection hps with hps
        subst hps
        exact ⟨hpos, m, hmc, rfl, rfl, hmd, hcap⟩
      · rw [if_neg hpos] at hps; cases hps

lemma get_top_n_stocks_eq_ite (db : DB) (d : Int) (n : Nat) :
    get_top_n_stocks db d n =
      if ((sortByCapDesc (filteredJoin db d)).take n).isEmpty then none
      else some ((sortByCapDesc (filteredJoin db d)).take n) := rfl

/-- C8 (amended): `_get_top_n_stocks` returns at most `topN` entries, all with
positive price and a non-null market_cap joined from `daily_market_cap`,
ordered by market_cap descending; it fails with the no-data `ValueError`
exactly when the filtered join is empty for that date **or** `topN = 0` (SQL
`LIMIT 0` empties a non-empty join as well). -/
theorem get_top_n_stocks_spec (db : DB) (d : Int) (n : Nat) :
    (∀ l, get_top_n_stocks db d n = some l →
      l.length ≤ n ∧ SortedByCapDesc l ∧
      (∀ s ∈ l, 0 < s.price ∧
        ∃ m ∈ db.caps, m.symbol = s.symbol ∧ m.exchange = s.exchange ∧
          m.date = d ∧ m.market_cap = some s.market_cap)) ∧
    (get_top_n_stocks db d n = none ↔ (filteredJoin db d = [] ∨ n = 0)) := by
  constructor
  · intro l hl
    rw [get_top_n_stocks_eq_ite] at hl
    by_cases he : ((sortByCapDesc (filteredJoin db d)).take n).isEmpty
    · rw [if_pos he] at hl; cases hl
    · rw [if_neg he] at hl
      injection hl with hl
      subst hl
      refine ⟨List.length_take_le n _, ?_, ?_⟩
      · exact List.Pairwise.sublist (List.take_sublist n _)
          (List.sorted_insertionSort capGE (filteredJoin db d))
      · intro s hs
        have hs' : s ∈ sortByCapDesc (filteredJoin db d) :=
          (List.take_sublist n _).mem hs
        have hs'' : s ∈ filteredJoin db d :=
          (List.perm_insertionSort capGE (filteredJoin db d)).mem_iff.mp hs'
        exact mem_filteredJoin hs''
  · rw [get_top_n_stocks_eq_ite]
    by_cases he : ((sortByCapDesc (filteredJoin db d)).take n).isEmpty
    · rw [if_pos he]
      simp only [true_iff]
      rcases List.take_eq_nil_iff.mp (List.isEmpty_iff.mp he) with h | h
      · right; exact h
      · left
        have := (List.perm_insertionSort capGE (filteredJoin db d)).symm
        rw [sortByCapDesc] at h
        rw [h] at this
        exact this.eq_nil
    · rw [if_neg he]
      constructor
      · intro h
        cases h
      · rintro (hj | hn)
        · exact (he (by rw [sortByCapDesc, hj]; simp)).elim
        · exact (he (by rw [hn]; rfl)).elim

def c8db : DB :=
  { caps := [⟨"A", "X", 1, some 100⟩], prices := [⟨"A", "X", 1, some 10, 1⟩] }

/-- C8 counterexample: for `topN = 0` the selector raises the no-data error even
though the filtered join for the date is non-empty, because `LIMIT 0` returns no
rows; so "fails exactly when the join is empty" is wrong at `topN = 0`. -/
theorem get_top_n_stocks_limit_zero :
    filteredJoin c8db 1 ≠ [] ∧ get_top_n_stocks c8db 1 0 = none := by
  constructor
  · norm_num [filteredJoin, c8db]
    simp
  · rfl

def c8_stock : Stock :=
  { symbol := "A", exchange := "X", market_cap := 100, price := 10, volume := 1 }

/-- Witness for `get_top_n_stocks_spec`: the selector at `c8db`, day 1, top 1. -/
theorem get_top_n_stocks_spec_witness :
    ([c8_stock].length ≤ 1 ∧ SortedByCapDesc [c8_stock] ∧
      (∀ s ∈ [c8_stock], 0 < s.price ∧
        ∃ m ∈ c8db.caps, m.symbol = s.symbol ∧ m.exchange = s.exchange ∧
          m.date = 1 ∧ m.market_cap = some s.market_cap)) ∧
    (get_top_n_stocks c8db 1 0 = none ↔ (filteredJoin c8db 1 = [] ∨ 0 = 0)) :=
  ⟨(get_top_n_stocks_spec c8db 1 1).1 [c8_stock]
      (by norm_num [get_top_n_stocks, sortByCapDesc, filteredJoin, c8db, c8_stock]),
   (get_top_n_stocks_spec c8db 1 0).2⟩

/-! ### C5 — determinism of build_index and market-cap ties -/

lemma get_top_n_stocks_valid (db : DB) (n : Nat) :
    ValidSel db n (fun d => get_top_n_stocks db d n) := by
  intro d
  exact ⟨sortByCapDesc (filteredJoin db d),
    List.perm_insertionSort capGE (filteredJoin db d),
    List.sorted_insertionSort capGE (filteredJoin db d), rfl⟩

lemma get_top_n_stocks_rev_valid (db : DB) (n : Nat) :
    ValidSel db n (fun d => get_top_n_stocks_rev db d n) := by
  intro d
  exact ⟨sortByCapDesc (filteredJoin db d).reverse,
    (List.perm_insertionSort capGE (filteredJoin db d).reverse).trans
      (List.reverse_perm (filteredJoin db d)),
    List.sorted_insertionSort capGE (filteredJoin db d).reverse, rfl⟩

def c5db : DB :=
  { caps := [⟨"A", "X", 0, some 100⟩, ⟨"B", "X", 0, some 100⟩],
    prices := [⟨"A", "X", 0, some 10, 1⟩, ⟨"B", "X", 0, some 20, 1⟩] }

/-- C5 counterexample: on a store where "A" and "B" have exactly equal market
cap on the init date, two legal executions of the top-N query (the engine's tie
order is unspecified) make the same `build_index` call persist different
composition rows: one run keeps "A", the other keeps "B". -/
theorem build_index_tie_ordering_matters :
    (∃ a ∈ c5db.caps, ∃ b ∈ c5db.caps, a.symbol ≠ b.symbol ∧
      a.market_cap = b.market_cap) ∧
    ValidSel c5db 1 (fun d => get_top_n_stocks c5db d 1) ∧
    ValidSel c5db 1 (fun d => get_top_n_stocks_rev c5db d 1) ∧
    (build_index_with c5db (fun d => get_top_n_stocks c5db d 1) 1 1 1 1000
        ⟨[], [], []⟩).map (fun r => r.tables.composition.map CompRow.symbol)
      = some ["A"] ∧
    (build_index_with c5db (fun d => get_top_n_stocks_rev c5db d 1) 1 1 1 1000
        ⟨[], [], []⟩).map (fun r => r.tables.composition.map CompRow.symbol)
      = some ["B"] := by
  refine ⟨⟨⟨"A", "X", 0, some 100⟩, by norm_num [c5db], ⟨"B", "X", 0, some 100⟩,
    by norm_num [c5db], by simp, rfl⟩,
    get_top_n_stocks_valid c5db 1, get_top_n_stocks_rev_valid c5db 1, ?_, ?_⟩
  · norm_num [build_index_with, find_init_date, get_top_n_stocks, filteredJoin,
      sortByCapDesc, capGE, reset_index_tables, date_range, build_step,
      update_portfolio_prices, update_position, price_lookup,
      calculate_equal_weights, calculate_nav, mutated_portfolio, save_performance,
      save_composition, comp_row, c5db, List.range_succ, List.filterMap_cons,
      List.filterMap_nil]
  · norm_num [build_index_with, find_init_date, get_top_n_stocks_rev, filteredJoin,
      sortByCapDesc, capGE, reset_index_tables, date_range, build_step,
      update_portfolio_prices, update_position, price_lookup,
      calculate_equal_weights, calculate_nav, mutated_portfolio, save_performance,
      save_composition, comp_row, c5db, List.range_succ, List.filterMap_cons,
      List.filterMap_nil]

/-- C5 (amended): for a fixed row ordering of the market data store (a fixed
selector), `build_index` is a deterministic function of its parameters, and —
because it first clears all three index tables (reset-then-rebuild) — its
result, persisted rows included, is independent of whatever index rows were
persisted before the call; so two runs with identical parameters and the same
store ordering yield identical rows.  When two stocks tie exactly on market
cap, however, the selected set depends on the store's unspecified tie order,
which the code does not normalize (no secondary sort key). -/
theorem build_index_deterministic (db : DB) (sel : Int → Option (List Stock))
    (start_date stop_date : Int) (n : Nat) (nav : ℚ) (t0 t1 : Tables) :
    build_index_with db sel start_date stop_date n nav t0
      = build_index_with db sel start_date stop_date n nav t1 := by
  unfold build_index_with reset_index_tables
  simp only [List.filter_false]

/-! ### C1 — days with an empty price/cap join -/

lemma build_step_skip (db : DB) (sel : Int → Option (List Stock)) (base : ℚ)
    (n : Nat) (s : BuildState) (d : Int)
    (h : update_portfolio_prices db s.prev_portfolio d = []) :
    build_step db sel base n s d = s := by
  unfold build_step
  rw [h]
  rfl

lemma get_top_n_stocks_of_empty_join (db : DB) (d : Int) (n : Nat)
    (hjoin : filteredJoin db d = []) : get_top_n_stocks db d n = none := by
  rw [get_top_n_stocks_eq_ite, sortByCapDesc, hjoin, if_pos]
  simp

def c1db : DB :=
  { caps := [⟨"A", "X", 0, some 100⟩],
    prices := [⟨"A", "X", 0, some 10, 5⟩, ⟨"A", "X", 1, some 12, 5⟩] }

/-- C1 counterexample: on day 1 the price/cap join is empty (no market-cap row)
but a price row for the held stock exists, so `build_index` saves a performance
row for day 1 and moves the carried NAV from 1000 to 1200 before the in-loop
`ValueError` is caught; only `days_processed` stays 0.  The day is therefore
not skipped "with no state mutation and no persistence". -/
theorem build_empty_join_persists_performance :
    filteredJoin c1db 1 = [] ∧
    (build_index c1db 1 1 1 1000 ⟨[], [], []⟩).map
        (fun r => (r.tables.performance.map PerfRow.date, r.final_nav,
          r.days_processed))
      = some ([1], 1200, 0) := by
  constructor
  · rfl
  · norm_num [build_index, build_index_with, find_init_date, get_top_n_stocks,
      filteredJoin, sortByCapDesc, capGE, reset_index_tables, date_range,
      build_step, update_portfolio_prices, update_position, price_lookup,
      calculate_equal_weights, calculate_nav, mutated_portfolio, save_performance,
      save_composition, comp_row, c1db, List.range_succ, List.filterMap_cons,
      List.filterMap_nil]

/-- C1 (amended): on a calendar day whose filtered price/cap join is empty, the
loop body never increments `days_processed` and never touches the composition
or change tables; if additionally the revaluation of the carried portfolio is
empty (no usable price rows either), the day is skipped with no state mutation
and no persistence at all.  But when price rows for carried positions exist
despite the empty join, a performance row for the day is persisted and the
carried NAV is updated before the day is abandoned (see the counterexample). -/
theorem build_step_empty_join (db : DB) (n : Nat) (base : ℚ) (s : BuildState)
    (d : Int) (hjoin : filteredJoin db d = []) :
    ((build_step db (fun x => get_top_n_stocks db x n) base n s d).days_processed
        = s.days_processed ∧
      (build_step db (fun x => get_top_n_stocks db x n) base n s d).tables.composition
        = s.tables.composition ∧
      (build_step db (fun x => get_top_n_stocks db x n) base n s d).tables.changes
        = s.tables.changes) ∧
    (update_portfolio_prices db s.prev_portfolio d = [] →
      build_step db (fun x => get_top_n_stocks db x n) base n s d = s) := by
  have hsel : get_top_n_stocks db d n = none :=
    get_top_n_stocks_of_empty_join db d n hjoin
  constructor
  · by_cases hupd : update_portfolio_prices db s.prev_portfolio d = []
    · rw [build_step_skip db _ base n s d hupd]
      exact ⟨rfl, rfl, rfl⟩
    · unfold build_step
      rw [if_neg (by simpa [List.isEmpty_iff] using hupd)]
      simp only [hsel]
      exact ⟨trivial, trivial, trivial⟩
  · exact build_step_skip db _ base n s d

def c1pos : Stock :=
  { symbol := "A", exchange := "X", market_cap := 100, price := 10, volume := 5,
    weight := some 1, notional_value := some 1000, shares := some 100 }

def c1state : BuildState :=
  { current_nav := 1000,
    prev_portfolio := [c1pos],
    tables := ⟨[], [], []⟩,
    days_processed := 0 }

/-- Witness for `build_step_empty_join` at a concrete state and a day with no
data at all. -/
theorem build_step_empty_join_witness :
    ((build_step c1db (fun x => get_top_n_stocks c1db x 1) 1000 1 c1state 5).days_processed
        = c1state.days_processed ∧
      (build_step c1db (fun x => get_top_n_stocks c1db x 1) 1000 1
          c1state 5).tables.composition = c1state.tables.composition ∧
      (build_step c1db (fun x => get_top_n_stocks c1db x 1) 1000 1
          c1state 5).tables.changes = c1state.tables.changes) ∧
    (update_portfolio_prices c1db c1state.prev_portfolio 5 = [] →
      build_step c1db (fun x => get_top_n_stocks c1db x 1) 1000 1 c1state 5
        = c1state) :=
  build_step_empty_join c1db 1 1000 c1state 5 (by rfl)

/-! ### C7 — the INIT-phase backward probe -/

lemma get_top_n_stocks_ne_some_nil (db : DB) (d : Int) (n : Nat) :
    get_top_n_stocks db d n ≠ some [] := by
  rw [get_top_n_stocks_eq_ite]
  by_cases he : ((sortByCapDesc (filteredJoin db d)).take n).isEmpty
  · rw [if_pos he]
    intro h; cases h
  · rw [if_neg he]
    intro h
    injection h with h
    exact he (by rw [h]; rfl)

lemma find_init_date_none_iff (sel : Int → Option (List Stock))
    (hne : ∀ x, sel x ≠ some []) :
    ∀ (k : Nat) (d : Int),
      (find_init_date sel d k = none ↔ ∀ j : Nat, j < k → sel (d - j) = none) := by
  intro k
  induction k with
  | zero => intro d; simp [find_init_date]
  | succ k ih =>
    intro d
    unfold find_init_date
    cases hs : sel d with
    | some stocks =>
      have hnil : stocks ≠ [] := fun h => hne d (h ▸ hs)
      simp only []
      rw [if_neg (by simpa [List.isEmpty_iff] using hnil)]
      constructor
      · intro h; cases h
      · intro h
        have h0 := h 0 (Nat.succ_pos k)
        rw [show d - ((0 : Nat) : ℤ) = d by simp] at h0
        rw [hs] at h0
        cases h0
    | none =>
      rw [ih (d - 1)]
      constructor
      · intro h j hj
        cases j with
        | zero => simpa using hs
        | succ i =>
          have hi := h i (by omega)
          rw [show d - 1 - (i : ℤ) = d - ((i + 1 : Nat) : ℤ) by push_cast; ring] at hi
          exact hi
      · intro h j hj
        have hj1 := h (j + 1) (by omega)
        rw [show d - ((j + 1 : Nat) : ℤ) = d - 1 - (j : ℤ) by push_cast; ring] at hj1
        exact hj1

lemma find_init_date_some (sel : Int → Option (List Stock)) :
    ∀ (k : Nat) (d : Int) (res : Int × List Stock),
      find_init_date sel d k = some res →
      ∃ j : Nat, j < k ∧ res.1 = d - j ∧ sel (d - j) = some res.2 ∧
        ∀ i : Nat, i < j → sel (d - i) = none := by
  intro k
  induction k with
  | zero => intro d res h; cases h
  | succ k ih =>
    intro d res h
    unfold find_init_date at h
    cases hs : sel d with
    | some stocks =>
      rw [hs] at h
      simp only [] at h
      by_cases hnil : stocks.isEmpty
      · rw [if_pos hnil] at h; cases h
      · rw [if_neg hnil] at h
        injection h with h
        refine ⟨0, Nat.succ_pos k, ?_, ?_, fun i hi => absurd hi (Nat.not_lt_zero i)⟩
        · rw [← h]; simp
        · rw [← h]; simpa using hs
    | none =>
      rw [hs] at h
      simp only [] at h
      rcases ih (d - 1) res h with ⟨j, hj, h1, h2, h3⟩
      refine ⟨j + 1, by omega, ?_, ?_, ?_⟩
      · rw [h1]; push_cast; ring
      · rw [show d - ((j + 1 : Nat) : ℤ) = d - 1 - (j : ℤ) by push_cast; ring]
        exact h2
      · intro i hi
        cases i with
        | zero => simpa using hs
        | succ i' =>
          rw [show d - ((i' + 1 : Nat) : ℤ) = d - 1 - (i' : ℤ) by push_cast; ring]
          exact h3 i' (by omega)

lemma build_index_eq_none_iff (db : DB) (s e : Int) (n : Nat) (nav : ℚ) (t : Tables) :
    (build_index db s e n nav t = none ↔
      find_init_date (fun d => get_top_n_stocks db d n) (s - 1) 10 = none) := by
  unfold build_index build_index_with
  cases hf : find_init_date (fun d => get_top_n_stocks db d n) (s - 1) 10 with
  | none => simp
  | some res => cases res with | mk a b => simp

lemma build_index_init_date (db : DB) (s e : Int) (n : Nat) (nav : ℚ) (t : Tables)
    (r : BuildResult) (h : build_index db s e n nav t = some r) :
    ∃ stocks, find_init_date (fun d => get_top_n_stocks db d n) (s - 1) 10
      = some (r.init_date, stocks) := by
  unfold build_index build_index_with at h
  cases hf : find_init_date (fun d => get_top_n_stocks db d n) (s - 1) 10 with
  | none => rw [hf] at h; cases h
  | some res =>
    cases res with
    | mk a b =>
      rw [hf] at h
      simp only [] at h
      injection h with h
      refine ⟨b, ?_⟩
      rw [← h]

/-- C7: the INIT phase of `build_index` probes the dates start_date − 1,
start_date − 2, ..., one day at a time, for at most 10 attempts; the build
fails (fatal `ValueError`, no initial portfolio, `none`) exactly when all ten
probed dates yield no data, and otherwise the resolved init date is the first
probed date on which `_get_top_n_stocks` succeeds. -/
theorem build_index_init_probe (db : DB) (s e : Int) (n : Nat) (nav : ℚ)
    (t : Tables) :
    (build_index db s e n nav t = none ↔
      ∀ k : Nat, 1 ≤ k → k ≤ 10 → get_top_n_stocks db (s - k) n = none) ∧
    (∀ r, build_index db s e n nav t = some r →
      ∃ k : Nat, 1 ≤ k ∧ k ≤ 10 ∧ r.init_date = s - k ∧
        get_top_n_stocks db (s - k) n ≠ none ∧
        ∀ j : Nat, 1 ≤ j → j < k → get_top_n_stocks db (s - j) n = none) := by
  have hne : ∀ x, get_top_n_stocks db x n ≠ some [] :=
    fun x => get_top_n_stocks_ne_some_nil db x n
  constructor
  · rw [build_index_eq_none_iff, find_init_date_none_iff _ hne 10 (s - 1)]
    constructor
    · intro h k hk1 hk10
      have hk := h (k - 1) (by omega)
      rw [show s - 1 - ((k - 1 : Nat) : ℤ) = s - (k : ℤ) by omega] at hk
      exact hk
    · intro h j hj
      have hj1 := h (j + 1) (by omega) (by omega)
      rw [show s - ((j + 1 : Nat) : ℤ) = s - 1 - (j : ℤ) by push_cast; ring] at hj1
      exact hj1
  · intro r hr
    rcases build_index_init_date db s e n nav t r hr with ⟨stocks, hf⟩
    rcases find_init_date_some _ 10 (s - 1) (r.init_date, stocks) hf with
      ⟨j, hj, h1, h2, h3⟩
    refine ⟨j + 1, by omega, by omega, ?_, ?_, ?_⟩
    · rw [show s - ((j + 1 : Nat) : ℤ) = s - 1 - (j : ℤ) by push_cast; ring]
      exact h1
    · rw [show s - ((j + 1 : Nat) : ℤ) = s - 1 - (j : ℤ) by push_cast; ring]
      intro hcon
      rw [h2] at hcon
      cases hcon
    · intro i hi1 hi
      rw [show s - (i : ℤ) = s - 1 - ((i - 1 : Nat) : ℤ) by omega]
      exact h3 (i - 1) (by omega)

def dbEmpty : DB := { caps := [], prices := [] }

/-- Witness for `build_index_init_probe`: over the empty store the build fails,
so every probed date (here the third) has no data. -/
theorem build_index_init_probe_witness :
    get_top_n_stocks dbEmpty ((5 : ℤ) - ((3 : Nat) : ℤ)) 1 = none :=
  ((build_index_init_probe dbEmpty 5 5 1 100 ⟨[], [], []⟩).1.mp (by rfl)) 3
    (by omega) (by omega)

/-! ### C10 — what a successful build persists for the init date -/

lemma mem_date_range {s e d : Int} : d ∈ date_range s e ↔ s ≤ d ∧ d ≤ e := by
  unfold date_range
  simp only [List.mem_map, List.mem_range]
  constructor
  · rintro ⟨i, hi, rfl⟩
    omega
  · rintro ⟨h1, h2⟩
    exact ⟨(d - s).toNat, by omega, by omega⟩

lemma date_range_nodup (s e : Int) : (date_range s e).Nodup := by
  unfold date_range
  exact (List.nodup_range _).map (fun a b hab => by omega)

lemma reset_index_tables_eq (t : Tables) : reset_index_tables t = ⟨[], [], []⟩ := by
  unfold reset_index_tables
  simp

lemma build_step_perf_of_ne (db : DB) (sel : Int → Option (List Stock)) (base : ℚ)
    (n : Nat) (s : BuildState) (d : Int)
    (hupd : update_portfolio_prices db s.prev_portfolio d ≠ []) :
    (build_step db sel base n s d).tables.performance
      = save_performance s.tables.performance d
          (calculate_nav (update_portfolio_prices db s.prev_portfolio d))
          (if 0 < s.current_nav then
            (calculate_nav (update_portfolio_prices db s.prev_portfolio d)
              - s.current_nav) / s.current_nav * 100
          else 0)
          ((calculate_nav (update_portfolio_prices db s.prev_portfolio d) - base)
            / base * 100) n := by
  unfold build_step
  rw [if_neg (by simpa [List.isEmpty_iff] using hupd)]
  cases sel d <;> rfl

lemma save_performance_mem {t : List PerfRow} {d : Int} {nav dr cr : ℚ} {n : Nat}
    {row : PerfRow} (h : row ∈ save_performance t d nav dr cr n) :
    row ∈ t ∨ row.date = d := by
  unfold save_performance at h
  rcases List.mem_append.mp h with h | h
  · exact Or.inl (List.mem_of_mem_filter h)
  · right
    rcases List.mem_singleton.mp h with rfl
    rfl

lemma build_step_perf_mem (db : DB) (sel : Int → Option (List Stock)) (base : ℚ)
    (n : Nat) (s : BuildState) (d : Int) {row : PerfRow}
    (h : row ∈ (build_step db sel base n s d).tables.performance) :
    row ∈ s.tables.performance ∨ row.date = d := by
  by_cases hupd : update_portfolio_prices db s.prev_portfolio d = []
  · rw [build_step_skip db sel base n s d hupd] at h
    exact Or.inl h
  · rw [build_step_perf_of_ne db sel base n s d hupd] at h
    exact save_performance_mem h

lemma fold_perf_dates (db : DB) (sel : Int → Option (List Stock)) (base : ℚ)
    (n : Nat) (P : Int → Prop) :
    ∀ (dates : List Int) (s0 : BuildState),
      (∀ row ∈ s0.tables.performance, P row.date) → (∀ d ∈ dates, P d) →
      ∀ row ∈ (dates.foldl (build_step db sel base n) s0).tables.performance,
        P row.date := by
  intro dates
  induction dates with
  | nil => exact fun s0 h0 _ row hrow => h0 row hrow
  | cons d rest ih =>
    intro s0 h0 hd row hrow
    rw [List.foldl_cons] at hrow
    refine ih (build_step db sel base n s0 d) ?_
      (fun x hx => hd x (List.mem_cons_of_mem d hx)) row hrow
    intro q hq
    rcases build_step_perf_mem db sel base n s0 d hq with h | h
    · exact h0 q h
    · rw [h]
      exact hd d (List.mem_cons_self d rest)

lemma save_performance_head {t : List PerfRow} {d : Int} {nav dr cr : ℚ} {n : Nat}
    {h0 : PerfRow} (hh : t.head? = some h0) (hd : h0.date ≠ d) :
    (save_performance t d nav dr cr n).head? = some h0 := by
  cases t with
  | nil => cases hh
  | cons a t' =>
    injection hh with hh
    subst hh
    unfold save_performance
    rw [List.filter_cons_of_pos (by simp [hd])]
    rfl

lemma build_step_perf_head (db : DB) (sel : Int → Option (List Stock)) (base : ℚ)
    (n : Nat) (s : BuildState) (d : Int) {h0 : PerfRow}
    (hh : s.tables.performance.head? = some h0) (hd : h0.date ≠ d) :
    (build_step db sel base n s d).tables.performance.head? = some h0 := by
  by_cases hupd : update_portfolio_prices db s.prev_portfolio d = []
  · rw [build_step_skip db sel base n s d hupd]
    exact hh
  · rw [build_step_perf_of_ne db sel base n s d hupd]
    exact save_performance_head hh hd

lemma fold_perf_head_stable (db : DB) (sel : Int → Option (List Stock)) (base : ℚ)
    (n : Nat) :
    ∀ (dates : List Int) (s0 : BuildState) (h0 : PerfRow),
      dates.Nodup →
      (∀ row ∈ s0.tables.performance, row.date ∉ dates) →
      s0.tables.performance.head? = some h0 →
      (dates.foldl (build_step db sel base n) s0).tables.performance.head?
        = some h0 := by
  intro dates
  induction dates with
  | nil => exact fun s0 h0 _ _ hh => hh
  | cons d rest ih =>
    intro s0 h0 hnd hdates hh
    have hmem : h0 ∈ s0.tables.performance := by
      cases hp : s0.tables.performance with
      | nil => rw [hp] at hh; cases hh
      | cons a t' =>
        rw [hp] at hh
        injection hh with hh
        rw [← hh]
        exact List.mem_cons_self a t'
    rw [List.foldl_cons]
    refine ih (build_step db sel base n s0 d) h0 (List.nodup_cons.mp hnd).2 ?_ ?_
    · intro q hq
      rcases build_step_perf_mem db sel base n s0 d hq with h | h
      · exact fun hmem' => hdates q h (List.mem_cons_of_mem d hmem')
      · rw [h]
        exact (List.nodup_cons.mp hnd).1
    · exact build_step_perf_head db sel base n s0 d hh
        (fun hcon => hdates h0 hmem (by rw [hcon]; exact List.mem_cons_self d rest))

lemma fold_perf_head_first (db : DB) (sel : Int → Option (List Stock)) (base : ℚ)
    (n : Nat) :
    ∀ (dates : List Int) (s0 : BuildState),
      dates.Nodup →
      s0.tables.performance = [] →
      ((dates.foldl (build_step db sel base n) s0).tables.performance.head?.map
          PerfRow.date)
        = dates.find?
            (fun d => !(update_portfolio_prices db s0.prev_portfolio d).isEmpty) := by
  intro dates
  induction dates with
  | nil =>
    intro s0 _ h0
    rw [List.foldl_nil, h0]
    rfl
  | cons d rest ih =>
    intro s0 hnd h0
    rw [List.foldl_cons]
    by_cases hupd : update_portfolio_prices db s0.prev_portfolio d = []
    · rw [build_step_skip db sel base n s0 d hupd]
      rw [List.find?_cons_of_neg _ (by simp [hupd])]
      exact ih s0 (List.nodup_cons.mp hnd).2 h0
    · rw [List.find?_cons_of_pos _ (by simp [List.isEmpty_iff, hupd])]
      obtain ⟨row, hrow, hdate⟩ :
          ∃ row, (build_step db sel base n s0 d).tables.performance = [row] ∧
            row.date = d := by
        refine ⟨⟨d, calculate_nav (update_portfolio_prices db s0.prev_portfolio d),
          (if 0 < s0.current_nav then
            (calculate_nav (update_portfolio_prices db s0.prev_portfolio d)
              - s0.current_nav) / s0.current_nav * 100
          else 0),
          (calculate_nav (update_portfolio_prices db s0.prev_portfolio d) - base)
            / base * 100, n⟩, ?_, rfl⟩
        rw [build_step_perf_of_ne db sel base n s0 d hupd, h0]
        rfl
      have hstable := fold_perf_head_stable db sel base n rest
        (build_step db sel base n s0 d) row (List.nodup_cons.mp hnd).2
        (by
          intro q hq
          rw [hrow] at hq
          rcases List.mem_singleton.mp hq with rfl
          rw [hdate]
          exact (List.nodup_cons.mp hnd).1)
        (by rw [hrow]; rfl)
      rw [hstable]
      simp [hdate]

lemma build_step_comp_filter (db : DB) (sel : Int → Option (List Stock)) (base : ℚ)
    (n : Nat) (s : BuildState) (d : Int) (d0 : Int) (hd : d ≠ d0) :
    ((build_step db sel base n s d).tables.composition.filter
        (fun r => decide (r.date = d0)))
      = s.tables.composition.filter (fun r => decide (r.date = d0)) := by
  by_cases hupd : update_portfolio_prices db s.prev_portfolio d = []
  · rw [build_step_skip db sel base n s d hupd]
  · unfold build_step
    rw [if_neg (by simpa [List.isEmpty_iff] using hupd)]
    cases hs : sel d with
    | none => rfl
    | some l =>
      simp only []
      unfold save_composition
      rw [List.filter_append]
      have h1 : ((calculate_equal_weights l
            (calculate_nav (update_portfolio_prices db s.prev_portfolio d))).map
              (comp_row d n)).filter (fun r => decide (r.date = d0)) = [] := by
        apply List.filter_eq_nil_iff.mpr
        intro q hq
        rcases List.mem_map.mp hq with ⟨p, -, rfl⟩
        simp [comp_row, hd]
      rw [h1, List.append_nil, List.filter_filter]
      apply List.filter_congr
      intro a _
      by_cases had : a.date = d0
      · simp [had]
        exact Or.inl (fun h => hd h.symm)
      · simp [had]

lemma fold_comp_filter (db : DB) (sel : Int → Option (List Stock)) (base : ℚ)
    (n : Nat) (d0 : Int) :
    ∀ (dates : List Int) (s0 : BuildState), (∀ d ∈ dates, d ≠ d0) →
      ((dates.foldl (build_step db sel base n) s0).tables.composition.filter
          (fun r => decide (r.date = d0)))
        = s0.tables.composition.filter (fun r => decide (r.date = d0)) := by
  intro dates
  induction dates with
  | nil => exact fun s0 _ => rfl
  | cons d rest ih =>
    intro s0 hd
    rw [List.foldl_cons,
      ih (build_step db sel base n s0 d) (fun x hx => hd x (List.mem_cons_of_mem d hx)),
      build_step_comp_filter db sel base n s0 d d0 (hd d (List.mem_cons_self d rest))]

/-- C10: after a successful INIT, `build_index` persists the initial
equal-weighted composition for the resolved init date (a pre-start date), but
writes no `index_performance` row for it: every performance row is dated within
[start, end], and the earliest one (the head of the persisted performance
table) is dated at the first calendar day of the range whose revaluation of the
initial portfolio is non-empty. -/
theorem build_index_init_day_rows (db : DB) (s e : Int) (n : Nat) (nav : ℚ)
    (t : Tables) (d0 : Int) (stocks : List Stock) (r : BuildResult)
    (hfind : find_init_date (fun x => get_top_n_stocks db x n) (s - 1) 10
      = some (d0, stocks))
    (hbuild : build_index db s e n nav t = some r) :
    r.init_date = d0 ∧ d0 < s ∧
    r.tables.composition.filter (fun row => decide (row.date = d0))
      = (calculate_equal_weights stocks nav).map (comp_row d0 n) ∧
    (∀ row ∈ r.tables.performance,
      row.date ≠ d0 ∧ s ≤ row.date ∧ row.date ≤ e) ∧
    (r.tables.performance.head?.map PerfRow.date
      = (date_range s e).find?
          (fun d => !(update_portfolio_prices db
            (calculate_equal_weights stocks nav) d).isEmpty)) := by
  have hd0 : d0 < s := by
    rcases find_init_date_some _ 10 (s - 1) (d0, stocks) hfind with ⟨j, -, h1, -, -⟩
    simp only [] at h1
    omega
  unfold build_index build_index_with at hbuild
  rw [hfind] at hbuild
  simp only [reset_index_tables_eq] at hbuild
  injection hbuild with hbuild
  subst hbuild
  refine ⟨rfl, hd0, ?_, ?_, ?_⟩
  · rw [fold_comp_filter db _ nav n d0 (date_range s e) _
      (fun x hx => by have := mem_date_range.mp hx; omega)]
    show (save_composition [] d0 (calculate_equal_weights stocks nav) n).filter
        (fun r => decide (r.date = d0))
      = (calculate_equal_weights stocks nav).map (comp_row d0 n)
    unfold save_composition
    rw [List.filter_append]
    apply congrArg₂ (· ++ ·) rfl
    apply List.filter_eq_self.mpr
    intro q hq
    rcases List.mem_map.mp hq with ⟨p, -, rfl⟩
    simp [comp_row]
  · intro row hrow
    exact fold_perf_dates db _ nav n
      (fun x => x ≠ d0 ∧ s ≤ x ∧ x ≤ e) (date_range s e) _
      (fun q hq => absurd hq (List.not_mem_nil q))
      (fun x hx => by have := mem_date_range.mp hx; exact ⟨by omega, this.1, this.2⟩)
      row hrow
  · exact fold_perf_head_first db _ nav n (date_range s e) _
      (date_range_nodup s e) rfl

def c10db : DB :=
  { caps := [⟨"A", "X", 0, some 100⟩, ⟨"A", "X", 1, some 110⟩],
    prices := [⟨"A", "X", 0, some 10, 1⟩, ⟨"A", "X", 1, some 11, 1⟩] }

def c10stock : Stock :=
  { symbol := "A", exchange := "X", market_cap := 100, price := 10, volume := 1 }

def c10res : BuildResult :=
  (build_index c10db 1 1 1 1000 ⟨[], [], []⟩).getD
    ⟨0, 0, 0, 0, ⟨[], [], []⟩⟩

/-- Witness for `build_index_init_day_rows` on a two-day store. -/
theorem build_index_init_day_rows_witness :
    c10res.init_date = 0 ∧ (0 : ℤ) < 1 ∧
    c10res.tables.composition.filter (fun row => decide (row.date = 0))
      = (calculate_equal_weights [c10stock] 1000).map (comp_row 0 1) ∧
    (∀ row ∈ c10res.tables.performance,
      row.date ≠ 0 ∧ 1 ≤ row.date ∧ row.date ≤ 1) ∧
    (c10res.tables.performance.head?.map PerfRow.date
      = (date_range 1 1).find?
          (fun d => !(update_portfolio_prices c10db
            (calculate_equal_weights [c10stock] 1000) d).isEmpty)) :=
  build_index_init_day_rows c10db 1 1 1 1000 ⟨[], [], []⟩ 0 [c10stock] c10res
    (by rfl)
    (by
      norm_num [build_index, build_index_with, find_init_date, get_top_n_stocks,
        filteredJoin, sortByCapDesc, capGE, reset_index_tables, date_range,
        build_step, update_portfolio_prices, update_position, price_lookup,
        calculate_equal_weights, calculate_nav, mutated_portfolio,
        save_performance, save_composition, comp_row, detect_composition_changes,
        stockKey, save_composition_changes, c10db, c10stock, c10res,
        List.range_succ, List.filterMap_cons, List.filterMap_nil])

end IndexBuilder
